import Mathlib

/-!
Shallow embedding of the easy-fs virtual filesystem layer
(`src/easy-fs/src/vfs.rs`) and the stride scheduler
(`src/os6/src/task/manager.rs`, `src/os6/src/task/processor.rs`,
`src/os6/src/syscall/fs.rs`) of the LearningOS lab4-os6 repository,
together with theorems settling the specification claims.

The on-disk layout layer (`layout.rs`), the allocator (`efs.rs`) and the
block cache are not part of the provided sources; where an operation of
those layers is needed it is modelled from the specification text and
marked `Modelled from the spec:` in its doc comment.  Everything in
`vfs.rs`, `manager.rs`, `processor.rs` and `fs.rs` is translated from the
source.
-/

namespace EasyFS

/-- Modelled from the spec: block size of the underlying block device.  The
spec fixes only that blocks have one fixed size; we use the standard easy-fs
value of 512 bytes, consistent with `DIRENT_SZ = 32` dividing a block. -/
def BLOCK_SZ : Nat := 512

/-- Width of one directory entry record, fixed at 32 bytes by the spec
(28-byte zero-padded name + 4-byte inode number). -/
def DIRENT_SZ : Nat := 32

/-- Modelled from the spec: number of direct block pointers of a
`DiskInode`.  The spec fixes the structure (direct array + indirect1 +
indirect2) but not the count; we use the standard easy-fs value. -/
def INODE_DIRECT_COUNT : Nat := 27

/-- Modelled from the spec: number of block pointers held by one
indirection block (a block full of 4-byte pointers). -/
def INDIRECT1_COUNT : Nat := BLOCK_SZ / 4

/-- A directory entry: fixed-width zero-padded name plus a `u32` inode
number.  `name` abstracts the 28-byte zero-padded field by the string of
bytes before the first NUL. -/
structure DirEntry where
  name : String
  inode_number : Nat
deriving Repr, DecidableEq

/-- `DirEntry::empty()`: the all-zero record — empty name, inode number 0.
This is also the tombstone written by `remove_hard_link`. -/
def DirEntry.empty : DirEntry := ⟨"", 0⟩

/-- `DirEntry::new(name, inode_number)`. -/
def DirEntry.new (name : String) (ino : Nat) : DirEntry := ⟨name, ino⟩

/-- File or directory type tag of a disk inode. -/
inductive DiskInodeType where
  | file
  | directory
deriving Repr, DecidableEq

/-- The content-relevant part of an on-disk inode of type File: byte size
and the byte at each position (`data k` is the byte at offset `k`; bytes at
or beyond `size` are unobservable junk, as in the source, where they live
in unallocated or stale blocks). -/
structure DiskInode where
  type_ : DiskInodeType
  size : Nat
  data : Nat → Nat

/-- Modelled from the spec: `DiskInode::initialize(type_)` zero-initializes
a freshly allocated inode record: size 0 and no block pointers.  The data
map is set to zero; it is unobservable at size 0. -/
def DiskInode.initialize (t : DiskInodeType) : DiskInode :=
  { type_ := t, size := 0, data := fun _ => 0 }

/-- The root directory's disk inode, viewed through `DIRENT_SZ`-sized
records: `size` in bytes, and `store i` the `DirEntry` occupying bytes
`[32*i, 32*i+32)`.  All directory accesses in `vfs.rs` read and write at
`DIRENT_SZ`-aligned offsets in `DIRENT_SZ`-sized units, so this view is
exact for them. -/
structure Dir where
  size : Nat
  store : Nat → DirEntry

/-- Number of directory slots scanned by every loop in `vfs.rs`:
`file_count = (disk_inode.size as usize) / DIRENT_SZ`. -/
def Dir.slots (d : Dir) : Nat := d.size / DIRENT_SZ

/-- Overwrite the `DirEntry` record at slot `i` (a 32-byte aligned
`write_at` on the directory inode). -/
def Dir.writeSlot (d : Dir) (i : Nat) (e : DirEntry) : Dir :=
  { d with store := fun j => if j = i then e else d.store j }

/-- Index of the first directory slot whose entry's name equals `name`,
scanning slots `0 ..< file_count` as `find_inode_id` does. -/
def Dir.findSlot (d : Dir) (name : String) : Option Nat :=
  (List.range d.slots).find? (fun i => (d.store i).name == name)

/-- `Inode::find_inode_id(name, disk_inode)`: linear scan of the directory
records, returning the inode number of the first entry named `name`. -/
def find_inode_id (name : String) (d : Dir) : Option Nat :=
  (d.findSlot name).map (fun i => (d.store i).inode_number)

/-- `Inode::ls()`: reads every directory record in order and pushes its
name — there is no tombstone filtering in the source. -/
def Inode.ls (d : Dir) : List String :=
  (List.range d.slots).map (fun i => (d.store i).name)

/-- `Inode::get_inode_number_times(inode_number)`: counts the directory
records whose inode number matches, tombstones included. -/
def get_inode_number_times (d : Dir) (ino : Nat) : Nat :=
  (List.range d.slots).countP (fun i => (d.store i).inode_number == ino)

/-- The loop body of `remove_hard_link`'s `modify_disk_inode` closure:
every slot whose entry is named `name` is overwritten with
`DirEntry::empty()`.  (The source zeroes slot `i` in iteration `i`; later
iterations read other slots, so the sequential loop equals this
simultaneous update.) -/
def Dir.zeroMatching (d : Dir) (name : String) : Dir :=
  { d with
    store := fun j =>
      if j < d.slots ∧ (d.store j).name = name then DirEntry.empty
      else d.store j }

/-- Modelled from the spec: number of data blocks holding `size` bytes,
`ceil(size / BLOCK_SZ)`. -/
def dataBlocksFor (size : Nat) : Nat := (size + BLOCK_SZ - 1) / BLOCK_SZ

/-- Modelled from the spec: `DiskInode::total_blocks(size)` — data blocks
plus the indirection bookkeeping blocks (the indirect1 block once the
direct array is exceeded, and the indirect2 block plus one indirect1-style
block per further `INDIRECT1_COUNT` data blocks). -/
def total_blocks (size : Nat) : Nat :=
  let d := dataBlocksFor size
  d + (if INODE_DIRECT_COUNT < d then 1 else 0) +
    (if INODE_DIRECT_COUNT + INDIRECT1_COUNT < d then
      1 + (d - INODE_DIRECT_COUNT - INDIRECT1_COUNT + INDIRECT1_COUNT - 1) / INDIRECT1_COUNT
     else 0)

/-- Modelled from the spec: `DiskInode::blocks_num_needed(new_size)` —
how many additional data plus indirection blocks a grow from `old_size`
to `new_size` requires, computed purely from byte counts. -/
def blocks_num_needed (old_size new_size : Nat) : Nat :=
  total_blocks new_size - total_blocks old_size

/-- The filesystem state visible to the claims: the root directory inode,
the file inodes indexed by inode id, the inode bitmap (with its total
capacity), and the number of free data blocks in the data bitmap. -/
structure EfsState where
  root : Dir
  files : Nat → DiskInode
  inodeUsed : Nat → Bool
  inodeCount : Nat
  freeData : Nat

/-- Modelled from the spec: `EasyFileSystem::alloc_data`, iterated `n`
times as in `Inode::increase_size`'s allocation loop — removes `n` blocks
from the data bitmap; exhaustion is fatal (`Except.error`). -/
def allocDataN (s : EfsState) (n : Nat) : Except String EfsState :=
  if n ≤ s.freeData then .ok { s with freeData := s.freeData - n }
  else .error "no free data block"

/-- Modelled from the spec: `EasyFileSystem::alloc_inode` — lowest free
bit of the inode bitmap, marked used; exhaustion is fatal. -/
def alloc_inode (s : EfsState) : Except String (Nat × EfsState) :=
  match (List.range s.inodeCount).find? (fun i => !s.inodeUsed i) with
  | some i =>
      .ok (i, { s with inodeUsed := fun j => if j = i then true else s.inodeUsed j })
  | none => .error "no free inode"

/-- `Inode::increase_size(new_size, root_inode, fs)` applied to the root
directory inode: no-op when `new_size < size`; otherwise allocates
`blocks_num_needed` data blocks and grows the size to `new_size`. -/
def Inode.increase_size_root (s : EfsState) (new_size : Nat) : Except String EfsState :=
  if new_size < s.root.size then .ok s
  else
    match allocDataN s (blocks_num_needed s.root.size new_size) with
    | .ok s' => .ok { s' with root := { s'.root with size := new_size } }
    | .error e => .error e

/-- `Inode::increase_size` applied to the file inode with id `ino`. -/
def Inode.increase_size_file (s : EfsState) (ino new_size : Nat) : Except String EfsState :=
  if new_size < (s.files ino).size then .ok s
  else
    match allocDataN s (blocks_num_needed (s.files ino).size new_size) with
    | .ok s' =>
        .ok { s' with
              files := fun j =>
                if j = ino then { s'.files ino with size := new_size } else s'.files j }
    | .error e => .error e

/-- `Inode::create(name)`: `None` if the name is already present;
otherwise allocates an inode, initializes it as an empty File, appends one
`DirEntry` to the root directory (growing it by `DIRENT_SZ`), and returns
a handle — identified here with the new inode id. -/
def Inode.create (s : EfsState) (name : String) : Except String (Option Nat × EfsState) :=
  if (find_inode_id name s.root).isSome then .ok (none, s)
  else
    match alloc_inode s with
    | .error e => .error e
    | .ok (new_inode_id, s₁) =>
      match Inode.increase_size_root
          { s₁ with
            files := fun j =>
              if j = new_inode_id then DiskInode.initialize .file else s₁.files j }
          ((s.root.slots + 1) * DIRENT_SZ) with
      | .error e => .error e
      | .ok s₃ =>
          .ok (some new_inode_id,
            { s₃ with root := s₃.root.writeSlot s.root.slots (DirEntry.new name new_inode_id) })

/-- `Inode::create_hard_link(o_name, n_name)`: rejects a self-link, fails
when the old name does not resolve, otherwise appends one `DirEntry`
carrying the resolved inode number.  It does not check whether `n_name`
already exists. -/
def Inode.create_hard_link (s : EfsState) (o_name n_name : String) :
    Except String (Int × EfsState) :=
  if o_name = n_name then .ok (-1, s)
  else
    match find_inode_id o_name s.root with
    | some inode_number =>
        (match Inode.increase_size_root s ((s.root.slots + 1) * DIRENT_SZ) with
         | .error e => .error e
         | .ok s₁ =>
            .ok (0,
              { s₁ with
                root := s₁.root.writeSlot s.root.slots (DirEntry.new n_name inode_number) }))
    | none => .ok (-1, s)

/-- `Inode::remove_hard_link(name)`: fails when `name` does not resolve;
otherwise zeroes every matching `DirEntry` in place.  In the source the
`link_count == 1` branch additionally does `self.find(name).unwrap()` and
immediately drops the handle — it never calls `Inode::clear`, so both
branches mutate the directory identically and no block is ever
deallocated. -/
def Inode.remove_hard_link (s : EfsState) (name : String) : Int × EfsState :=
  match find_inode_id name s.root with
  | some inode_number =>
      let res := get_inode_number_times s.root inode_number
      if res > 1 then (0, { s with root := s.root.zeroMatching name })
      else
        -- `let inode = self.find(name).unwrap(); drop(inode);` — no effect
        (0, { s with root := s.root.zeroMatching name })
  | none => (-1, s)

/-- `Inode::clear()`: clears the inode's size and returns all of its data
and indirection blocks (`clear_size`, whose length the source asserts to
be `total_blocks(size)`) to the allocator via `dealloc_data`. -/
def Inode.clear (s : EfsState) (ino : Nat) : EfsState :=
  { s with
    files := fun j => if j = ino then { s.files ino with size := 0 } else s.files j,
    freeData := s.freeData + total_blocks (s.files ino).size }

/-- `Inode::read_at(offset, buf)` on the file inode `ino` with a buffer of
length `n`: the bytes transferred.  `DiskInode::read_at` (modelled from
the spec) clips to the current size, so `min n (size - offset)` bytes are
returned. -/
def Inode.read_at (s : EfsState) (ino offset n : Nat) : List Nat :=
  let f := s.files ino
  (List.range (min n (f.size - offset))).map (fun k => f.data (offset + k))

/-- `Inode::write_at(offset, buf)` on the file inode `ino`: grows the
inode to `offset + buf.len()` via `increase_size` first, then
`DiskInode::write_at` (modelled from the spec) transfers the full
requested length, whose byte count it returns. -/
def Inode.write_at (s : EfsState) (ino offset : Nat) (buf : List Nat) :
    Except String (Nat × EfsState) :=
  match Inode.increase_size_file s ino (offset + buf.length) with
  | .error e => .error e
  | .ok s₁ =>
    .ok (buf.length,
      { s₁ with
        files := fun j =>
          if j = ino then
            { s₁.files ino with
              data := fun k =>
                if offset ≤ k ∧ k < offset + buf.length then buf.getD (k - offset) 0
                else (s₁.files ino).data k }
          else s₁.files j })

/-- Modelled from the spec: `EasyFileSystem::get_disk_inode_pos(inode_id)`
— pure geometry, `block_id = inode_area_start + inode_id / inodes_per_block`,
`offset = (inode_id % inodes_per_block) * inode_record_size`, where
`inodes_per_block = BLOCK_SZ / inode_size`. -/
def get_disk_inode_pos (inode_area_start inode_size inode_id : Nat) : Nat × Nat :=
  let inodes_per_block := BLOCK_SZ / inode_size
  (inode_area_start + inode_id / inodes_per_block,
   (inode_id % inodes_per_block) * inode_size)

/-- `Inode::get_inode_number()`: recovers the logical inode id of a handle
from its `(block_id, block_offset)` and the allocator's geometry. -/
def Inode.get_inode_number (inode_area_start inode_size block_id block_offset : Nat) : Nat :=
  let inodes_per_block := BLOCK_SZ / inode_size
  (block_id - inode_area_start) * inodes_per_block + block_offset / inode_size

/-- `crate::fs::get_hard_links_by_inode_number` (declared in the spec's
external interface; Modelled from the spec: forwards to the root inode's
`get_inode_number_times`). -/
def get_hard_links_by_inode_number (s : EfsState) (ino : Nat) : Nat :=
  get_inode_number_times s.root ino

/-- The `nlink` field `sys_fstat` stores into the user's `Stat` record:
`get_hard_links_by_inode_number(ino)` (from `src/os6/src/syscall/fs.rs`). -/
def sys_fstat_nlink (s : EfsState) (ino : Nat) : Nat :=
  get_hard_links_by_inode_number s ino

/-- A directory-mutating operation of the root inode, for stating
invariants over operation sequences. -/
inductive Op where
  | create (name : String)
  | link (o_name n_name : String)
  | unlink (name : String)

/-- Apply one directory operation, discarding its return value. -/
def applyOp (s : EfsState) : Op → Except String EfsState
  | .create name =>
      match Inode.create s name with
      | .ok r => .ok r.2
      | .error e => .error e
  | .link o n =>
      match Inode.create_hard_link s o n with
      | .ok r => .ok r.2
      | .error e => .error e
  | .unlink name => .ok (Inode.remove_hard_link s name).2

/-- Run a sequence of directory operations left to right. -/
def runOps (s : EfsState) : List Op → Except String EfsState
  | [] => .ok s
  | op :: ops =>
      match applyOp s op with
      | .ok s' => runOps s' ops
      | .error e => .error e

/-- The specification's reading of `ls` (for comparison with the source's
`Inode.ls`): only the names of non-tombstone entries, a tombstone being a
zeroed (`DirEntry.empty`) slot. -/
def ls_spec_non_tombstone (d : Dir) : List String :=
  ((List.range d.slots).filter (fun i => !(d.store i == DirEntry.empty))).map
    (fun i => (d.store i).name)

/-- Number of tombstoned (zeroed) directory slots. -/
def tombstone_count (d : Dir) : Nat :=
  (List.range d.slots).countP (fun i => d.store i == DirEntry.empty)

/-- Number of live (non-tombstone) directory slots carrying inode number
`ino`. -/
def live_count_for (d : Dir) (ino : Nat) : Nat :=
  (List.range d.slots).countP
    (fun i => ((d.store i).inode_number == ino) && !(d.store i == DirEntry.empty))

/-- Return code of a `create_hard_link`-shaped result, `-99` marking the
fatal path. -/
def exceptCodeD (r : Except String (Int × EfsState)) : Int :=
  match r with
  | .ok p => p.1
  | .error _ => -99

/-- Result state of a `create_hard_link`-shaped result, with a default
for the fatal path. -/
def exceptStateD (r : Except String (Int × EfsState)) (dflt : EfsState) : EfsState :=
  match r with
  | .ok p => p.2
  | .error _ => dflt

/-- Failing input for the last-link reclamation claim: a root directory
with the single name "f" bound to inode 1, whose file holds 512 bytes
(one data block), with 10 data blocks free. -/
def c1s : EfsState :=
  { root := { size := 32, store := fun i => if i = 0 then ⟨"f", 1⟩ else DirEntry.empty },
    files := fun i =>
      if i = 1 then { type_ := .file, size := 512, data := fun _ => 7 }
      else DiskInode.initialize .file,
    inodeUsed := fun i => i < 2,
    inodeCount := 16,
    freeData := 10 }

/-- A directory holding exactly one tombstoned slot. -/
def c2dir : Dir := { size := 32, store := fun _ => DirEntry.empty }

/-- A root directory binding "a" to inode 1 and "b" to inode 2. -/
def c3s : EfsState :=
  { root := { size := 64,
              store := fun i =>
                if i = 0 then ⟨"a", 1⟩ else if i = 1 then ⟨"b", 2⟩ else DirEntry.empty },
    files := fun _ => DiskInode.initialize .file,
    inodeUsed := fun i => i < 3,
    inodeCount := 16,
    freeData := 10 }

/-- The state after `create_hard_link("a", "b")` on `c3s`. -/
def c3t : EfsState := exceptStateD (Inode.create_hard_link c3s "a" "b") c3s

/-- A root directory binding only "a" to inode 1, with "g" free. -/
def c3ws : EfsState :=
  { root := { size := 32, store := fun i => if i = 0 then ⟨"a", 1⟩ else DirEntry.empty },
    files := fun _ => DiskInode.initialize .file,
    inodeUsed := fun i => i < 2,
    inodeCount := 16,
    freeData := 10 }

/-- The result of `create_hard_link("a", "g")` on `c3ws`. -/
def c3wr : Int × EfsState :=
  match Inode.create_hard_link c3ws "a" "g" with
  | .ok p => p
  | .error _ => (-99, c3ws)

/-- An empty-root filesystem state. -/
def c4s : EfsState :=
  { root := { size := 0, store := fun _ => DirEntry.empty },
    files := fun _ => DiskInode.initialize .file,
    inodeUsed := fun _ => false,
    inodeCount := 4,
    freeData := 8 }

/-- An empty-root filesystem state for exercising `create`. -/
def c5s : EfsState :=
  { root := { size := 0, store := fun _ => DirEntry.empty },
    files := fun _ => DiskInode.initialize .file,
    inodeUsed := fun _ => false,
    inodeCount := 4,
    freeData := 8 }

/-- The result of `create("f")` on `c5s`. -/
def c5r : Option Nat × EfsState :=
  match Inode.create c5s "f" with
  | .ok p => p
  | .error _ => (none, c5s)

/-- A filesystem state whose inode 2 is a freshly created empty file. -/
def c6s : EfsState :=
  { root := { size := 32, store := fun i => if i = 0 then ⟨"h", 2⟩ else DirEntry.empty },
    files := fun _ => DiskInode.initialize .file,
    inodeUsed := fun i => i < 3,
    inodeCount := 8,
    freeData := 4 }

/-- The result of `write_at(1, [7, 8])` on inode 2 of `c6s`. -/
def c6r : Nat × EfsState :=
  match Inode.write_at c6s 2 1 [7, 8] with
  | .ok p => p
  | .error _ => (0, c6s)

/-- An empty-root filesystem state for exercising operation sequences. -/
def c8s : EfsState :=
  { root := { size := 0, store := fun _ => DirEntry.empty },
    files := fun _ => DiskInode.initialize .file,
    inodeUsed := fun _ => false,
    inodeCount := 4,
    freeData := 8 }

/-- A create / link / unlink sequence. -/
def c8ops : List Op := [Op.create "f", Op.link "f" "g", Op.unlink "f"]

/-- The state after running `c8ops` on `c8s`. -/
def c8t : EfsState :=
  match runOps c8s c8ops with
  | .ok t => t
  | .error _ => c8s

end EasyFS

namespace OSTask

/-- The part of a `TaskControlBlock`'s inner state that
`TaskManager::fetch` reads: the stride counter, an unsigned byte quantity
(updated by `wrapping_add` in `run_tasks`). -/
structure TaskInner where
  stride : Nat
deriving Repr, DecidableEq

/-- The comparison of the fetch loop: `let difference = (t - min_stride)
as i8; difference <= 0` — the wrapping 8-bit difference read as a signed
byte, non-positive exactly when it is 0 or at least 128. -/
def strideDiffLEZero (t m : Nat) : Bool :=
  let d := (t % 256 + 256 - m % 256) % 256
  d == 0 || 128 ≤ d

/-- `TaskManager::fetch()`: reads `ready_queue[0].stride` before any
emptiness check — on an empty queue the indexing panics (`Except.error`).
Otherwise the loop over `1..len` keeps the index of the minimum stride
under the signed-byte comparison, and `ready_queue.remove(index)` returns
the removed task as an `Option` together with the remaining queue. -/
def TaskManager.fetch : List TaskInner →
    Except String (Option TaskInner × List TaskInner)
  | [] => .error "index out of bounds"
  | t0 :: rest =>
    let q := t0 :: rest
    let r := (List.range' 1 (q.length - 1)).foldl
      (fun (acc : Nat × Nat) i =>
        if strideDiffLEZero (q.getD i t0).stride acc.2 then (i, (q.getD i t0).stride)
        else acc)
      (0, t0.stride)
    .ok (q.get? r.1, q.eraseIdx r.1)

/-- `fetch_task()`: forwards to `TASK_MANAGER.fetch()`; this is the call
the `run_tasks` scheduler loop makes each iteration. -/
def fetch_task (q : List TaskInner) :
    Except String (Option TaskInner × List TaskInner) :=
  TaskManager.fetch q

end OSTask

namespace EasyFS

lemma list_find?_congr {α : Type} {p q : α → Bool} :
    ∀ l : List α, (∀ a ∈ l, p a = q a) → l.find? p = l.find? q := by
  intro l
  induction l with
  | nil => intro _; rfl
  | cons x xs ih =>
    intro h
    simp only [List.find?_cons]
    rw [h x (List.mem_cons_self x xs)]
    cases hq : q x with
    | false =>
      simp only []
      exact ih fun a ha => h a (List.mem_cons_of_mem _ ha)
    | true => simp only []

lemma countP_split {α : Type} (p q : α → Bool) :
    ∀ l : List α,
      l.countP p = l.countP (fun a => p a && q a) + l.countP (fun a => p a && !q a) := by
  intro l
  induction l with
  | nil => rfl
  | cons x xs ih =>
    cases hp : p x <;> cases hq : q x <;>
      simp [List.countP_cons, hp, hq, ih] <;> omega

lemma Dir.findSlot_some_spec (d : Dir) (name : String) (i : Nat)
    (h : d.findSlot name = some i) : i < d.slots ∧ (d.store i).name = name := by
  constructor
  · have hm := List.mem_of_find?_eq_some h
    simpa [List.mem_range] using hm
  · have hp := List.find?_some h
    simpa [beq_iff_eq] using hp

lemma Dir.findSlot_none_spec (d : Dir) (name : String)
    (h : d.findSlot name = none) : ∀ i, i < d.slots → (d.store i).name ≠ name := by
  intro i hi he
  rw [Dir.findSlot, List.find?_eq_none] at h
  have h2 := h i (List.mem_range.mpr hi)
  simp only [beq_iff_eq] at h2
  exact h2 he

lemma find_inode_id_eq_none (name : String) (d : Dir) :
    find_inode_id name d = none ↔ d.findSlot name = none := by
  simp [find_inode_id]

lemma find_inode_id_some_spec (name : String) (d : Dir) (ino : Nat)
    (h : find_inode_id name d = some ino) :
    ∃ i, d.findSlot name = some i ∧ (d.store i).inode_number = ino ∧
      i < d.slots ∧ (d.store i).name = name := by
  rw [find_inode_id] at h
  rcases Option.map_eq_some'.mp h with ⟨i, hi, hval⟩
  obtain ⟨hlt, hname⟩ := Dir.findSlot_some_spec d name i hi
  exact ⟨i, hi, hval, hlt, hname⟩

lemma Dir.findSlot_grow_of_some (d d' : Dir) (name : String) (j : Nat)
    (hs : d'.slots = d.slots + 1)
    (hag : ∀ i, i < d.slots → d'.store i = d.store i)
    (hj : d.findSlot name = some j) :
    d'.findSlot name = some j := by
  rw [Dir.findSlot] at hj
  rw [Dir.findSlot, hs, List.range_succ, List.find?_append]
  have hcongr : (List.range d.slots).find? (fun i => (d'.store i).name == name)
      = (List.range d.slots).find? (fun i => (d.store i).name == name) :=
    list_find?_congr _ fun a ha => by rw [hag a (List.mem_range.mp ha)]
  rw [hcongr, hj]
  rfl

lemma Dir.findSlot_grow_of_none (d d' : Dir) (name : String)
    (hs : d'.slots = d.slots + 1)
    (hag : ∀ i, i < d.slots → d'.store i = d.store i)
    (hlast : (d'.store d.slots).name = name)
    (hn : d.findSlot name = none) :
    d'.findSlot name = some d.slots := by
  rw [Dir.findSlot] at hn
  rw [Dir.findSlot, hs, List.range_succ, List.find?_append]
  have hcongr : (List.range d.slots).find? (fun i => (d'.store i).name == name)
      = (List.range d.slots).find? (fun i => (d.store i).name == name) :=
    list_find?_congr _ fun a ha => by rw [hag a (List.mem_range.mp ha)]
  rw [hcongr, hn]
  simp [List.find?_cons, hlast]

lemma Dir.times_grow (d d' : Dir) (ino : Nat)
    (hs : d'.slots = d.slots + 1)
    (hag : ∀ i, i < d.slots → d'.store i = d.store i) :
    get_inode_number_times d' ino
      = get_inode_number_times d ino
        + (if (d'.store d.slots).inode_number = ino then 1 else 0) := by
  rw [get_inode_number_times, get_inode_number_times, hs, List.range_succ,
    List.countP_append]
  congr 1
  · exact List.countP_congr fun i hi => by
      rw [hag i (List.mem_range.mp hi)]
  · by_cases hm : (d'.store d.slots).inode_number = ino <;>
      simp [List.countP_cons, hm]

lemma ls_count_eq (d : Dir) (name : String) :
    (Inode.ls d).count name
      = (List.range d.slots).countP (fun i => (d.store i).name == name) := by
  rw [Inode.ls, List.count_eq_countP, List.countP_map]
  rfl

end EasyFS

namespace EasyFS

/-- C1: the claim says that when the derived link count is 1,
`remove_hard_link` clears the inode's blocks and returns them to the
allocator.  The code does not: no branch of `remove_hard_link` ever calls
`Inode::clear` or `dealloc_data`, so the free-block count is unchanged by
every `remove_hard_link` (first conjunct).  At the failing input `c1s`
("f" is the only name of inode 1, whose file occupies one data block),
`remove_hard_link("f")` returns 0 and zeroes the entry, yet leaves
`freeData` at 10, although reclamation — the source's own `Inode::clear`
— would have returned `total_blocks 512 = 1` block and produced 11. -/
theorem remove_hard_link_never_deallocates :
    (∀ (s : EfsState) (name : String),
      (Inode.remove_hard_link s name).2.freeData = s.freeData) ∧
    (Inode.remove_hard_link c1s "f").1 = 0 ∧
    find_inode_id "f" (Inode.remove_hard_link c1s "f").2.root = none ∧
    get_inode_number_times c1s.root 1 = 1 ∧
    (Inode.remove_hard_link c1s "f").2.freeData = c1s.freeData ∧
    total_blocks (c1s.files 1).size = 1 ∧
    (Inode.clear c1s 1).freeData = c1s.freeData + 1 := by
  refine ⟨?_, by decide, by decide, by decide, by decide, by decide, by decide⟩
  intro s name
  cases hf : find_inode_id name s.root with
  | none => simp [Inode.remove_hard_link, hf]
  | some ino =>
    simp only [Inode.remove_hard_link, hf]
    split <;> rfl

/-- C2 (counterexample): a directory whose single slot is a tombstone.
The claim says `ls` returns exactly the non-tombstone names — here the
empty list — but the source's `ls` pushes the tombstone's (empty) name. -/
theorem ls_counterexample_tombstone :
    Inode.ls c2dir = [""] ∧ ls_spec_non_tombstone c2dir = [] ∧
    Inode.ls c2dir ≠ ls_spec_non_tombstone c2dir := by
  refine ⟨by decide, by decide, by decide⟩

/-- C2 (amended): `ls` does not skip tombstones: it returns one name per
`DirEntry` slot (`size / DIRENT_SZ` names), and the slots zeroed by
`remove_hard_link` contribute empty-string names to a subsequent `ls`
instead of contributing nothing. -/
theorem ls_reports_every_slot :
    ∀ (s : EfsState) (name : String),
      (Inode.ls s.root).length = s.root.slots ∧
      Inode.ls (Inode.remove_hard_link s name).2.root
        = (List.range s.root.slots).map
            (fun i => if (s.root.store i).name = name then "" else (s.root.store i).name) := by
  intro s name
  refine ⟨by simp [Inode.ls], ?_⟩
  cases hf : find_inode_id name s.root with
  | some ino =>
    simp only [Inode.remove_hard_link, hf]
    split <;>
    · rw [Inode.ls]
      refine List.map_congr_left ?_
      intro i hi
      have hi' : i < s.root.slots := List.mem_range.mp hi
      simp only [Dir.zeroMatching]
      by_cases hm : (s.root.store i).name = name
      · rw [if_pos ⟨hi', hm⟩, if_pos hm]
        rfl
      · rw [if_neg (fun hc => hm hc.2), if_neg hm]
  | none =>
    simp only [Inode.remove_hard_link, hf]
    have hnone := (find_inode_id_eq_none name s.root).mp hf
    have hAll := Dir.findSlot_none_spec s.root name hnone
    rw [Inode.ls]
    refine List.map_congr_left ?_
    intro i hi
    rw [if_neg (hAll i (List.mem_range.mp hi))]

/-- C4: `create_hard_link` rejects a self-link for every name (existing or
not) and rejects an unresolvable old name, in both cases returning `-1`
with the state untouched. -/
theorem create_hard_link_rejects :
    ∀ (s : EfsState) (a b : String),
      a = b ∨ find_inode_id a s.root = none →
      Inode.create_hard_link s a b = .ok (-1, s) := by
  intro s a b h
  rcases h with h | h
  · simp [Inode.create_hard_link, h]
  · by_cases hab : a = b
    · simp [Inode.create_hard_link, hab]
    · simp [Inode.create_hard_link, hab, h]

/-- Witness for C4 at the concrete state `c4s` and name "x". -/
theorem create_hard_link_rejects_witness :
    Inode.create_hard_link c4s "x" "x" = .ok (-1, c4s) :=
  create_hard_link_rejects c4s "x" "x" (Or.inl rfl)

/-- C7: `get_inode_number` is a left inverse of the allocator's pure
geometry function `get_disk_inode_pos`, for every inode id and every
geometry with a positive inode record size fitting in a block. -/
theorem get_inode_number_left_inverse :
    ∀ (inode_area_start inode_size inode_id : Nat),
      0 < inode_size → inode_size ≤ BLOCK_SZ →
      Inode.get_inode_number inode_area_start inode_size
        (get_disk_inode_pos inode_area_start inode_size inode_id).1
        (get_disk_inode_pos inode_area_start inode_size inode_id).2 = inode_id := by
  intro start sz i h1 h2
  simp only [Inode.get_inode_number, get_disk_inode_pos]
  rw [Nat.add_sub_cancel_left, Nat.mul_div_cancel _ h1, Nat.mul_comm,
    Nat.div_add_mod]

/-- Witness for C7: inode id 7 with the standard geometry (128-byte inode
records, inode area starting at block 2) round-trips. -/
theorem get_inode_number_left_inverse_witness :
    Inode.get_inode_number 2 128
      (get_disk_inode_pos 2 128 7).1 (get_disk_inode_pos 2 128 7).2 = 7 :=
  get_inode_number_left_inverse 2 128 7 (by decide) (by decide)

/-- C10: a tombstone carries inode number 0, and `get_inode_number_times`
does not skip tombstones, so the count for inode number 0 — and the
`nlink` value `sys_fstat` reports for it — equals the number of live
names for inode 0 plus the number of tombstoned entries. -/
theorem tombstone_inflates_inode0_count :
    ∀ s : EfsState,
      DirEntry.empty.inode_number = 0 ∧
      get_inode_number_times s.root 0
        = live_count_for s.root 0 + tombstone_count s.root ∧
      sys_fstat_nlink s 0
        = live_count_for s.root 0 + tombstone_count s.root := by
  intro s
  have key : get_inode_number_times s.root 0
      = live_count_for s.root 0 + tombstone_count s.root := by
    rw [get_inode_number_times,
      countP_split (fun i => (s.root.store i).inode_number == 0)
        (fun i => s.root.store i == DirEntry.empty)]
    have h1 : (List.range s.root.slots).countP
        (fun i => ((s.root.store i).inode_number == 0) && (s.root.store i == DirEntry.empty))
        = tombstone_count s.root := by
      rw [tombstone_count]
      refine List.countP_congr ?_
      intro i _
      constructor
      · intro h; exact (Bool.and_eq_true _ _).mp h |>.2
      · intro h
        refine (Bool.and_eq_true _ _).mpr ⟨?_, h⟩
        have he : s.root.store i = DirEntry.empty := by simpa using h
        rw [he]
        rfl
    have h2 : (List.range s.root.slots).countP
        (fun i => ((s.root.store i).inode_number == 0) && !(s.root.store i == DirEntry.empty))
        = live_count_for s.root 0 := rfl
    rw [h1, h2]
    omega
  exact ⟨rfl, key, key⟩

end EasyFS

namespace OSTask

lemma fetch_fold_fst_lt (q : List TaskInner) (t0 : TaskInner) (n : Nat) :
    ∀ (xs : List Nat) (acc : Nat × Nat),
      (∀ x ∈ xs, x < n) → acc.1 < n →
      (xs.foldl
        (fun (acc : Nat × Nat) i =>
          if strideDiffLEZero (q.getD i t0).stride acc.2 then (i, (q.getD i t0).stride)
          else acc) acc).1 < n := by
  intro xs
  induction xs with
  | nil => intro acc _ h; simpa using h
  | cons x xs ih =>
    intro acc hx hacc
    rw [List.foldl_cons]
    apply ih
    · exact fun y hy => hx y (List.mem_cons_of_mem _ hy)
    · split
      · exact hx x (List.mem_cons_self _ _)
      · exact hacc

/-- C9: `TaskManager::fetch` reads `ready_queue[0]` before checking
emptiness, so with an empty ready queue it panics with an out-of-bounds
index (the error value here) rather than returning `None`; on every
non-empty queue it returns `Some` task, so the `None` branch of the
declared `Option` return type is unreachable — in particular through
`fetch_task`, the call the `run_tasks` scheduler loop makes. -/
theorem fetch_empty_queue_panics :
    fetch_task ([] : List TaskInner) = .error "index out of bounds" ∧
    ∀ (t : TaskInner) (ts : List TaskInner),
      ∃ u rest, fetch_task (t :: ts) = .ok (some u, rest) := by
  refine ⟨rfl, ?_⟩
  intro t ts
  rw [fetch_task]
  simp only [TaskManager.fetch]
  set r := (List.range' 1 ((t :: ts).length - 1)).foldl
      (fun (acc : Nat × Nat) i =>
        if strideDiffLEZero ((t :: ts).getD i t).stride acc.2
        then (i, ((t :: ts).getD i t).stride)
        else acc)
      (0, t.stride) with hr
  have hlt : r.1 < (t :: ts).length := by
    rw [hr]
    apply fetch_fold_fst_lt
    · intro x hx
      rcases List.mem_range'.mp hx with ⟨i, hi, hxi⟩
      simp only [List.length_cons] at hi ⊢
      omega
    · simp
  have hget : (t :: ts).get? r.1 = some ((t :: ts).get ⟨r.1, hlt⟩) := by
    rw [List.get?_eq_getElem?, List.getElem?_eq_getElem hlt]
    rfl
  exact ⟨(t :: ts).get ⟨r.1, hlt⟩, (t :: ts).eraseIdx r.1, by rw [hget]⟩

end OSTask

namespace EasyFS

lemma remove_hard_link_root_size (s : EfsState) (name : String) :
    (Inode.remove_hard_link s name).2.root.size = s.root.size := by
  cases hf : find_inode_id name s.root with
  | none => simp [Inode.remove_hard_link, hf]
  | some ino =>
    simp only [Inode.remove_hard_link, hf]
    split <;> rfl

lemma increase_size_root_ok (s : EfsState) (n : Nat) (s' : EfsState)
    (h : Inode.increase_size_root s n = .ok s') :
    s'.root.store = s.root.store ∧ s'.files = s.files ∧ s'.inodeUsed = s.inodeUsed ∧
    (s'.root.size = s.root.size ∨ s'.root.size = n) := by
  rw [Inode.increase_size_root] at h
  split at h
  · cases h
    exact ⟨rfl, rfl, rfl, Or.inl rfl⟩
  · cases ha : allocDataN s (blocks_num_needed s.root.size n) with
    | error e => rw [ha] at h; cases h
    | ok s₁ =>
      rw [ha] at h
      rw [allocDataN] at ha
      split at ha
      · cases ha
        cases h
        exact ⟨rfl, rfl, rfl, Or.inr rfl⟩
      · cases ha

lemma increase_size_root_grows (s : EfsState) (n : Nat)
    (hge : ¬ n < s.root.size)
    (hle : blocks_num_needed s.root.size n ≤ s.freeData) :
    Inode.increase_size_root s n
      = .ok { s with
              freeData := s.freeData - blocks_num_needed s.root.size n,
              root := { s.root with size := n } } := by
  rw [Inode.increase_size_root, if_neg hge, allocDataN, if_pos hle]

lemma alloc_inode_ok (s : EfsState) (i : Nat) (s₁ : EfsState)
    (h : alloc_inode s = .ok (i, s₁)) :
    s₁.root = s.root ∧ s₁.files = s.files ∧ s₁.freeData = s.freeData ∧
    s₁.inodeCount = s.inodeCount := by
  rw [alloc_inode] at h
  split at h
  · cases h
    exact ⟨rfl, rfl, rfl, rfl⟩
  · cases h

lemma create_ok_root_size (s : EfsState) (name : String) (r : Option Nat × EfsState)
    (h : Inode.create s name = .ok r) :
    r.2.root.size = s.root.size ∨ r.2.root.size = (s.root.slots + 1) * DIRENT_SZ := by
  rw [Inode.create] at h
  split at h
  · cases h
    exact Or.inl rfl
  · cases ha : alloc_inode s with
    | error e => rw [ha] at h; cases h
    | ok p =>
      obtain ⟨i, s₁⟩ := p
      obtain ⟨hroot, -, -, -⟩ := alloc_inode_ok s i s₁ ha
      rw [ha] at h
      dsimp only at h
      cases hg : Inode.increase_size_root
          { s₁ with files := fun j => if j = i then DiskInode.initialize .file else s₁.files j }
          ((s.root.slots + 1) * DIRENT_SZ) with
      | error e => rw [hg] at h; cases h
      | ok s₃ =>
        rw [hg] at h
        cases h
        rcases increase_size_root_ok _ _ _ hg with ⟨-, -, -, hsz | hsz⟩
        · left
          show s₃.root.size = s.root.size
          rw [hsz]
          show s₁.root.size = s.root.size
          rw [hroot]
        · right
          exact hsz

lemma create_hard_link_ok_root_size (s : EfsState) (o n : String) (r : Int × EfsState)
    (h : Inode.create_hard_link s o n = .ok r) :
    r.2.root.size = s.root.size ∨ r.2.root.size = (s.root.slots + 1) * DIRENT_SZ := by
  rw [Inode.create_hard_link] at h
  split at h
  · cases h
    exact Or.inl rfl
  · cases hf : find_inode_id o s.root with
    | none => rw [hf] at h; cases h; exact Or.inl rfl
    | some ino =>
      rw [hf] at h
      dsimp only at h
      cases hg : Inode.increase_size_root s ((s.root.slots + 1) * DIRENT_SZ) with
      | error e => rw [hg] at h; cases h
      | ok s₁ =>
        rw [hg] at h
        cases h
        rcases increase_size_root_ok _ _ _ hg with ⟨-, -, -, hsz | hsz⟩
        · exact Or.inl hsz
        · exact Or.inr hsz

lemma applyOp_aligned (s : EfsState) (op : Op) (s' : EfsState)
    (h0 : s.root.size % DIRENT_SZ = 0) (h : applyOp s op = .ok s') :
    s'.root.size % DIRENT_SZ = 0 := by
  cases op with
  | unlink name =>
    simp only [applyOp] at h
    cases h
    rw [remove_hard_link_root_size]
    exact h0
  | create name =>
    simp only [applyOp] at h
    cases hc : Inode.create s name with
    | error e => rw [hc] at h; cases h
    | ok r =>
      rw [hc] at h
      cases h
      rcases create_ok_root_size s name r hc with h1 | h1
      · rw [h1]; exact h0
      · rw [h1]; exact Nat.mul_mod_left _ _
  | link o n =>
    simp only [applyOp] at h
    cases hc : Inode.create_hard_link s o n with
    | error e => rw [hc] at h; cases h
    | ok r =>
      rw [hc] at h
      cases h
      rcases create_hard_link_ok_root_size s o n r hc with h1 | h1
      · rw [h1]; exact h0
      · rw [h1]; exact Nat.mul_mod_left _ _

/-- C8: every sequence of directory operations (create, create_hard_link,
remove_hard_link) that runs without a fatal allocator error keeps the root
directory's byte size a multiple of `DIRENT_SZ` (32): each operation grows
the directory by whole `DirEntry` units or rewrites entries in place. -/
theorem dir_size_alignment_invariant :
    ∀ (ops : List Op) (s s' : EfsState),
      s.root.size % DIRENT_SZ = 0 → runOps s ops = .ok s' →
      s'.root.size % DIRENT_SZ = 0 := by
  intro ops
  induction ops with
  | nil =>
    intro s s' h0 h
    rw [runOps] at h
    cases h
    exact h0
  | cons op ops ih =>
    intro s s' h0 h
    rw [runOps] at h
    cases ha : applyOp s op with
    | error e => rw [ha] at h; cases h
    | ok t =>
      rw [ha] at h
      exact ih t s' (applyOp_aligned s op t h0 ha) h

/-- Witness for C8: the create/link/unlink sequence `c8ops` run from the
empty root `c8s` ends with an aligned directory size. -/
theorem dir_size_alignment_invariant_witness :
    c8t.root.size % DIRENT_SZ = 0 :=
  dir_size_alignment_invariant c8ops c8s c8t (by decide) (by rfl)

end EasyFS

namespace EasyFS

lemma create_of_found (s : EfsState) (name : String)
    (h : (find_inode_id name s.root).isSome) :
    Inode.create s name = .ok (none, s) := by
  rw [Inode.create, if_pos h]

lemma size_lt_next_slot (s : EfsState) :
    s.root.size < (s.root.slots + 1) * DIRENT_SZ := by
  simp only [Dir.slots, DIRENT_SZ]
  omega

lemma create_success_shape (s : EfsState) (name : String) (i : Nat) (s₁ : EfsState)
    (hn : find_inode_id name s.root = none)
    (ha : alloc_inode s = .ok (i, s₁))
    (hle : blocks_num_needed s.root.size ((s.root.slots + 1) * DIRENT_SZ) ≤ s.freeData) :
    Inode.create s name
      = .ok (some i,
          { root :=
              { size := (s.root.slots + 1) * DIRENT_SZ,
                store := fun j =>
                  if j = s.root.slots then DirEntry.new name i else s.root.store j },
            files := fun j => if j = i then DiskInode.initialize .file else s.files j,
            inodeUsed := s₁.inodeUsed,
            inodeCount := s.inodeCount,
            freeData :=
              s.freeData
                - blocks_num_needed s.root.size ((s.root.slots + 1) * DIRENT_SZ) }) := by
  have hcond : ¬ ((find_inode_id name s.root).isSome = true) := by simp [hn]
  obtain ⟨hroot, hfiles, hfree, hcount⟩ := alloc_inode_ok s i s₁ ha
  have hlt := size_lt_next_slot s
  rw [Inode.create, if_neg hcond, ha]
  dsimp only
  rw [increase_size_root_grows _ _ (by dsimp only; rw [hroot]; omega)
    (by dsimp only; rw [hroot, hfree]; exact hle)]
  dsimp only
  simp only [hroot, hfiles, hfree, hcount]
  rfl

lemma count_grow_fresh (d d' : Dir) (name : String)
    (hs : d'.slots = d.slots + 1)
    (hag : ∀ i, i < d.slots → d'.store i = d.store i)
    (hnone : ∀ i, i < d.slots → (d.store i).name ≠ name)
    (hlast : (d'.store d.slots).name = name) :
    (List.range d'.slots).countP (fun i => (d'.store i).name == name) = 1 := by
  rw [hs, List.range_succ, List.countP_append]
  have h0 : (List.range d.slots).countP (fun i => (d'.store i).name == name) = 0 := by
    rw [List.countP_eq_zero]
    intro a ha
    have halt := List.mem_range.mp ha
    rw [hag a halt]
    simp only [beq_iff_eq]
    exact fun hc => hnone a halt hc
  rw [h0]
  simp [List.countP_cons, hlast]

/-- C5: `create(name)` with an existing name returns `None` and mutates
nothing; with a fresh name (no slot carries it) — provided the inode
bitmap has a free slot and the data bitmap can cover the directory growth,
the only non-fatal path — it returns `Some` handle to a freshly
initialized empty File inode, appends exactly one `DirEntry`, makes `ls`
contain the name exactly once, and a second `create` of the same name
then returns `None` without mutating. -/
theorem create_duplicate_rejection :
    ∀ (s : EfsState) (name : String),
      ((find_inode_id name s.root).isSome → Inode.create s name = .ok (none, s)) ∧
      (find_inode_id name s.root = none →
        blocks_num_needed s.root.size ((s.root.slots + 1) * DIRENT_SZ) ≤ s.freeData →
        ∀ (i : Nat) (s₁ : EfsState), alloc_inode s = .ok (i, s₁) →
          (Inode.create s name).isOk = true ∧
          ∀ r, Inode.create s name = .ok r →
            r.1 = some i ∧
            r.2.files i = DiskInode.initialize .file ∧
            r.2.root.slots = s.root.slots + 1 ∧
            (Inode.ls r.2.root).count name = 1 ∧
            Inode.create r.2 name = .ok (none, r.2)) := by
  intro s name
  refine ⟨fun h => create_of_found s name h, ?_⟩
  intro hn hle i s₁ ha
  obtain ⟨hroot, hfiles, hfree⟩ := alloc_inode_ok s i s₁ ha
  have hshape := create_success_shape s name i s₁ hn ha hle
  refine ⟨by rw [hshape]; rfl, ?_⟩
  intro r hr
  rw [hshape] at hr
  cases hr
  have hslots : (((s.root.slots + 1) * DIRENT_SZ : Nat)) / DIRENT_SZ = s.root.slots + 1 := by
    simp only [DIRENT_SZ]
    omega
  have hnslot : s.root.findSlot name = none := (find_inode_id_eq_none name s.root).mp hn
  have hnoname := Dir.findSlot_none_spec s.root name hnslot
  refine ⟨rfl, by simp, hslots, ?_, ?_⟩
  · rw [ls_count_eq]
    refine count_grow_fresh s.root _ name hslots ?_ hnoname ?_
    · intro j hj
      show (if j = s.root.slots then DirEntry.new name i else s.root.store j) = s.root.store j
      rw [if_neg (by omega)]
    · show (if s.root.slots = s.root.slots then DirEntry.new name i else _).name = name
      rw [if_pos rfl]
      rfl
  · refine create_of_found _ name ?_
    have hlast : ((if s.root.slots = s.root.slots then DirEntry.new name i
        else s.root.store s.root.slots)).name = name := by
      rw [if_pos rfl]; rfl
    have hslot := Dir.findSlot_grow_of_none s.root
      { size := (s.root.slots + 1) * DIRENT_SZ,
        store := fun j => if j = s.root.slots then DirEntry.new name i else s.root.store j }
      name hslots
      (fun j hj => by
        show (if j = s.root.slots then DirEntry.new name i else s.root.store j) = s.root.store j
        rw [if_neg (by omega)])
      hlast hnslot
    rw [find_inode_id, hslot]
    rfl

/-- Witness for C5: creating "f" in the empty root `c5s` yields inode 0,
a fresh empty file, one matching `ls` entry, and a rejected second
create. -/
theorem create_duplicate_rejection_witness :
    (Inode.create c5s "f").isOk = true ∧
    (c5r.1 = some 0 ∧
      c5r.2.files 0 = DiskInode.initialize .file ∧
      c5r.2.root.slots = c5s.root.slots + 1 ∧
      (Inode.ls c5r.2.root).count "f" = 1 ∧
      Inode.create c5r.2 "f" = .ok (none, c5r.2)) :=
  ⟨((create_duplicate_rejection c5s "f").2 (by decide) (by decide) 0
      { root := c5s.root,
        files := c5s.files,
        inodeUsed := fun j => if j = 0 then true else c5s.inodeUsed j,
        inodeCount := c5s.inodeCount,
        freeData := c5s.freeData } rfl).1,
   ((create_duplicate_rejection c5s "f").2 (by decide) (by decide) 0
      { root := c5s.root,
        files := c5s.files,
        inodeUsed := fun j => if j = 0 then true else c5s.inodeUsed j,
        inodeCount := c5s.inodeCount,
        freeData := c5s.freeData } rfl).2 c5r rfl⟩

end EasyFS

namespace EasyFS

lemma create_hard_link_success_shape (s : EfsState) (o n : String) (ino : Nat)
    (hon : o ≠ n)
    (hfo : find_inode_id o s.root = some ino)
    (hle : blocks_num_needed s.root.size ((s.root.slots + 1) * DIRENT_SZ) ≤ s.freeData) :
    Inode.create_hard_link s o n
      = .ok (0,
          { root :=
              { size := (s.root.slots + 1) * DIRENT_SZ,
                store := fun j =>
                  if j = s.root.slots then DirEntry.new n ino else s.root.store j },
            files := s.files,
            inodeUsed := s.inodeUsed,
            inodeCount := s.inodeCount,
            freeData :=
              s.freeData
                - blocks_num_needed s.root.size ((s.root.slots + 1) * DIRENT_SZ) }) := by
  have hlt := size_lt_next_slot s
  rw [Inode.create_hard_link, if_neg hon, hfo]
  dsimp only
  rw [increase_size_root_grows s _ (by omega) hle]
  dsimp only
  rfl

/-- C3 (counterexample): in `c3s` the directory binds "a" to inode 1 and
"b" to inode 2.  `create_hard_link("a", "b")` succeeds (returns 0) because
the source never checks whether the new name already exists, yet
afterwards `inode_of("a") = 1` with count 2 while `inode_of("b")` still
resolves to the older entry's inode 2 with count 1 — the claimed equality
(and the pre-plus-one value for `inode_of("b")`, whose pre-count was
already 1) fails. -/
theorem create_hard_link_counterexample_existing_new_name :
    exceptCodeD (Inode.create_hard_link c3s "a" "b") = 0 ∧
    find_inode_id "a" c3t.root = some 1 ∧
    find_inode_id "b" c3t.root = some 2 ∧
    get_inode_number_times c3s.root 2 = 1 ∧
    get_inode_number_times c3t.root 1 = 2 ∧
    get_inode_number_times c3t.root 2 = 1 ∧
    get_inode_number_times c3t.root ((find_inode_id "a" c3t.root).getD 99)
      ≠ get_inode_number_times c3t.root ((find_inode_id "b" c3t.root).getD 99) := by
  exact ⟨by decide, by decide, by decide, by decide, by decide, by decide, by decide⟩

/-- C3 (amended): the claim holds once the new name is required to be
fresh.  If `a` resolves to `ino`, `b` does not resolve, and the data
bitmap covers the directory growth (the only non-fatal path), then
`create_hard_link(a, b)` succeeds, appends exactly one `DirEntry` (slot
count grows by one), allocates no inode and touches no file, both names
resolve to `ino`, and the shared count `get_inode_number_times(ino)`
equals the pre-link count plus one. -/
theorem create_hard_link_fresh_link_count :
    ∀ (s : EfsState) (a b : String) (ino : Nat),
      find_inode_id a s.root = some ino →
      find_inode_id b s.root = none →
      blocks_num_needed s.root.size ((s.root.slots + 1) * DIRENT_SZ) ≤ s.freeData →
      (Inode.create_hard_link s a b).isOk = true ∧
      ∀ r, Inode.create_hard_link s a b = .ok r →
        r.1 = 0 ∧
        find_inode_id a r.2.root = some ino ∧
        find_inode_id b r.2.root = some ino ∧
        get_inode_number_times r.2.root ino = get_inode_number_times s.root ino + 1 ∧
        r.2.root.slots = s.root.slots + 1 ∧
        r.2.inodeUsed = s.inodeUsed ∧
        r.2.files = s.files := by
  intro s a b ino hfa hfb hle
  have hab : a ≠ b := fun h => by rw [h, hfb] at hfa; cases hfa
  have hshape := create_hard_link_success_shape s a b ino hab hfa hle
  refine ⟨by rw [hshape]; rfl, ?_⟩
  intro r hr
  rw [hshape] at hr
  cases hr
  have hslots : (((s.root.slots + 1) * DIRENT_SZ : Nat)) / DIRENT_SZ = s.root.slots + 1 := by
    simp only [DIRENT_SZ]
    omega
  have hag : ∀ j, j < s.root.slots →
      (if j = s.root.slots then DirEntry.new b ino else s.root.store j) = s.root.store j := by
    intro j hj
    rw [if_neg (by omega)]
  have hlast : ((if s.root.slots = s.root.slots then DirEntry.new b ino
      else s.root.store s.root.slots)).name = b := by
    rw [if_pos rfl]; rfl
  obtain ⟨j, hj, hval, hjlt, hjname⟩ := find_inode_id_some_spec a s.root ino hfa
  have hbslot : s.root.findSlot b = none := (find_inode_id_eq_none b s.root).mp hfb
  refine ⟨rfl, ?_, ?_, ?_, hslots, rfl, rfl⟩
  · have hgrow := Dir.findSlot_grow_of_some s.root
      { size := (s.root.slots + 1) * DIRENT_SZ,
        store := fun k => if k = s.root.slots then DirEntry.new b ino else s.root.store k }
      a j hslots hag hj
    rw [find_inode_id, hgrow]
    show some (if j = s.root.slots then DirEntry.new b ino
      else s.root.store j).inode_number = some ino
    rw [if_neg (by omega), hval]
  · have hgrow := Dir.findSlot_grow_of_none s.root
      { size := (s.root.slots + 1) * DIRENT_SZ,
        store := fun k => if k = s.root.slots then DirEntry.new b ino else s.root.store k }
      b hslots hag hlast hbslot
    rw [find_inode_id, hgrow]
    show some (if s.root.slots = s.root.slots then DirEntry.new b ino
      else s.root.store s.root.slots).inode_number = some ino
    rw [if_pos rfl]
    rfl
  · have htimes := Dir.times_grow s.root
      { size := (s.root.slots + 1) * DIRENT_SZ,
        store := fun k => if k = s.root.slots then DirEntry.new b ino else s.root.store k }
      ino hslots hag
    rw [htimes]
    show get_inode_number_times s.root ino
        + (if ((if s.root.slots = s.root.slots then DirEntry.new b ino
            else s.root.store s.root.slots)).inode_number = ino then 1 else 0)
      = get_inode_number_times s.root ino + 1
    simp [DirEntry.new]

/-- Witness for C3's amended theorem at `c3ws`: linking fresh "g" to "a"
(inode 1). -/
theorem create_hard_link_fresh_link_count_witness :
    (Inode.create_hard_link c3ws "a" "g").isOk = true ∧
    (c3wr.1 = 0 ∧
      find_inode_id "a" c3wr.2.root = some 1 ∧
      find_inode_id "g" c3wr.2.root = some 1 ∧
      get_inode_number_times c3wr.2.root 1 = get_inode_number_times c3ws.root 1 + 1 ∧
      c3wr.2.root.slots = c3ws.root.slots + 1 ∧
      c3wr.2.inodeUsed = c3ws.inodeUsed ∧
      c3wr.2.files = c3ws.files) :=
  ⟨(create_hard_link_fresh_link_count c3ws "a" "g" 1 (by decide) (by decide) (by decide)).1,
   (create_hard_link_fresh_link_count c3ws "a" "g" 1 (by decide) (by decide)
      (by decide)).2 c3wr rfl⟩

end EasyFS

namespace EasyFS

lemma increase_size_file_grows (s : EfsState) (ino n : Nat)
    (hge : ¬ n < (s.files ino).size)
    (hle : blocks_num_needed (s.files ino).size n ≤ s.freeData) :
    Inode.increase_size_file s ino n
      = .ok { s with
              freeData := s.freeData - blocks_num_needed (s.files ino).size n,
              files := fun j =>
                if j = ino then { s.files ino with size := n } else s.files j } := by
  rw [Inode.increase_size_file, if_neg hge, allocDataN, if_pos hle]

/-- C6: `read_at` never reads past the current size (first conjunct, for
every state); and on a file previously created empty, `write_at(O, B)`
returns the full requested length `len(B)` — the wrapper growing the
inode first via `increase_size`, whose allocation is covered by the
hypothesis, the only non-fatal path — and a subsequent
`read_at(O, len(B))` transfers exactly `B` back. -/
theorem write_read_round_trip :
    (∀ (s : EfsState) (ino offset n : Nat),
      offset + (Inode.read_at s ino offset n).length ≤ max (s.files ino).size offset) ∧
    ∀ (s : EfsState) (ino offset : Nat) (B : List Nat),
      (s.files ino).size = 0 →
      blocks_num_needed 0 (offset + B.length) ≤ s.freeData →
      (Inode.write_at s ino offset B).isOk = true ∧
      ∀ r, Inode.write_at s ino offset B = .ok r →
        r.1 = B.length ∧ Inode.read_at r.2 ino offset B.length = B := by
  constructor
  · intro s ino offset n
    simp only [Inode.read_at, List.length_map, List.length_range]
    omega
  intro s ino offset B h0 hle
  have hge : ¬ offset + B.length < (s.files ino).size := by rw [h0]; omega
  have hle2 : blocks_num_needed (s.files ino).size (offset + B.length) ≤ s.freeData := by
    rw [h0]; exact hle
  have hgrows := increase_size_file_grows s ino (offset + B.length) hge hle2
  constructor
  · rw [Inode.write_at, hgrows]
    rfl
  intro r hr
  rw [Inode.write_at, hgrows] at hr
  dsimp only at hr
  cases hr
  refine ⟨rfl, ?_⟩
  simp only [Inode.read_at]
  simp only [↓reduceIte]
  rw [Nat.add_sub_cancel_left, Nat.min_self]
  refine List.ext_getElem (by simp) ?_
  intro k h1 h2
  simp only [List.getElem_map, List.getElem_range]
  rw [if_pos ⟨Nat.le_add_right _ _, by omega⟩, Nat.add_sub_cancel_left]
  exact List.getD_eq_getElem B 0 (by simpa using h2)

end EasyFS

namespace EasyFS

/-- Witness for C6: writing `[7, 8]` at offset 1 into the empty file of
inode 2 in `c6s` returns 2 and reads back `[7, 8]`. -/
theorem write_read_round_trip_witness :
    (Inode.write_at c6s 2 1 [7, 8]).isOk = true ∧
    (c6r.1 = 2 ∧ Inode.read_at c6r.2 2 1 2 = [7, 8]) :=
  ⟨(write_read_round_trip.2 c6s 2 1 [7, 8] (by decide) (by decide)).1,
   (write_read_round_trip.2 c6s 2 1 [7, 8] (by decide) (by decide)).2 c6r rfl⟩

end EasyFS
